import Mathlib

/-!
# Verification of the `seq` sequence library (Go)

Shallow embedding of `src/seq.go`: a lazy, composable sequence library whose
core is the order-preserving, bounded-parallelism mapping engine `CMap`.

Conventions of the embedding:
* Go's dynamic element type `interface{}` (`El`) is modelled by the inductive
  type `El` below: the untyped `nil`, machine integers, and nested sequences
  (the only shapes the library and its claims manipulate).  Go `nil` is
  `El.nil`.
* A materialized sequence (`SequentialSeq`, a Go slice) is a `List El`.
* A concurrent sequence is modelled by the list of elements its producer
  sends on the channel, in order; a channel receive loop is a structural
  recursion over that list.
* The `CMap` coordinator is a state machine: its single-threaded loop body is
  a nondeterministic `select` over three gated edges (emit / ingest /
  collect), modelled by the inductive step relation `CMapStep`.  Worker
  completions are nondeterministic, so the collect edge may pick any pending
  worker.
* Fallible operations (slice bounds, out-of-range writes) return `Option` /
  a `Bool` flag, exactly where the Go code faults or returns a flag.
-/

namespace SeqModel

/-- Model of Go `interface{}` sequence elements (`type El interface{}`):
the untyped `nil`, integers, and nested sequence values. -/
inductive El where
  | nil : El
  | int : Int → El
  | seq : List El → El

instance : Inhabited El := ⟨El.nil⟩

/-! ## Sliding window (`SlidingWindow`, src/seq.go lines 213-268)

A fixed-capacity power-of-two ring buffer of `{value, present}` slots,
indexed by a monotonically growing `base`.  Fields `start`, `base`, `count`
are Go `int`s that remain nonnegative in every reachable use, modelled as
`Nat`; the `index` parameters of `Get`/`Set` are modelled as `Int` because
the Go code compares `index - base` against 0. -/

/-- `type swEntry struct {value El; present bool}` -/
structure swEntry where
  value : El
  present : Bool

instance : Inhabited swEntry := ⟨El.nil, false⟩

/-- `type SlidingWindow struct {start, base, count, mask int; values []swEntry}` -/
structure SlidingWindow where
  start : Nat
  base : Nat
  count : Nat
  mask : Nat
  values : List swEntry

/-- `NewSlidingWindow(sz)`: capacity `1 << sz`, mask `(1 << sz) - 1`,
all slots zeroed (`{nil, false}`). -/
def NewSlidingWindow (sz : Nat) : SlidingWindow :=
  ⟨0, 0, 0, (1 <<< sz) - 1, List.replicate (1 <<< sz) ⟨El.nil, false⟩⟩

namespace SlidingWindow

/-- `Capacity() int {return len(r.values)}` -/
def Capacity (r : SlidingWindow) : Nat := r.values.length

/-- `normalize(index) {return (index + len(r.values)) & r.mask}` -/
def normalize (r : SlidingWindow) (index : Nat) : Nat :=
  (index + r.values.length) &&& r.mask

/-- `GetFirst()`: `(r.values[r.start].value, r.values[r.start].present)`. -/
def GetFirst (r : SlidingWindow) : El × Bool :=
  let e := r.values.getD r.start default
  (e.value, e.present)

/-- `RemoveFirst()`: pops the front slot when present; returns the removed
value, the success flag, and the updated window. -/
def RemoveFirst (r : SlidingWindow) : (El × Bool) × SlidingWindow :=
  let e := r.values.getD r.start default
  if e.present then
    ((e.value, true),
      { r with values := r.values.set r.start ⟨El.nil, false⟩,
               count := r.count - 1,
               start := r.normalize (r.start + 1),
               base := r.base + 1 })
  else ((El.nil, false), r)

/-- `Get(index)`: rejects indices outside `[base, base+Capacity)`, otherwise
reads the ring slot `normalize(index - base + start)`. -/
def Get (r : SlidingWindow) (index : Int) : El × Bool :=
  let j : Int := index - r.base
  if j < 0 ∨ (r.Capacity : Int) ≤ j then (El.nil, false)
  else
    let e := r.values.getD (r.normalize (j.toNat + r.start)) default
    (e.value, e.present)

/-- `Set(index, value)`: rejects indices outside `[base, base+Capacity)`
without touching the window; otherwise writes `value` to the ring slot,
marks it present, and increments `count` iff the slot was absent.  Returns
the updated window and the success flag. -/
def Set (r : SlidingWindow) (index : Int) (value : El) : SlidingWindow × Bool :=
  let j : Int := index - r.base
  if j < 0 ∨ (r.Capacity : Int) ≤ j then (r, false)
  else
    let k := r.normalize (j.toNat + r.start)
    let e := r.values.getD k default
    ({ r with values := r.values.set k ⟨value, true⟩,
              count := if e.present then r.count else r.count + 1 }, true)

/-- Well-formedness of a window as established by `NewSlidingWindow` and
preserved by the operations: power-of-two capacity, `mask = capacity - 1`,
`start` in range, and absent slots hold the zero value `nil`. -/
structure WF (k : Nat) (r : SlidingWindow) : Prop where
  values_len : r.values.length = 2 ^ k
  mask_eq : r.mask = 2 ^ k - 1
  start_lt : r.start < 2 ^ k
  absent_nil : ∀ e ∈ r.values, e.present = false → e.value = El.nil

theorem normalize_lt (k : Nat) (r : SlidingWindow) (h : WF k r) (x : Nat) :
    r.normalize x < r.values.length := by
  have hm : r.normalize x ≤ r.mask := Nat.and_le_right
  have : r.mask < r.values.length := by
    rw [h.mask_eq, h.values_len]
    exact Nat.sub_lt (Nat.pos_pow_of_pos k (by norm_num)) (by norm_num)
  omega

end SlidingWindow

/-! ## The `CMap` coordinator (src/seq.go lines 270-311)

`CMap(f, sizePowerOpt...)` spawns a coordinator goroutine that multiplexes,
via a three-way gated `select`, between (a) emitting the window's front
result downstream, (b) ingesting the next upstream element and spawning a
worker for it (or observing upstream closure), and (c) collecting a worker
reply into the window.  The coordinator's local state is modelled by
`CMapState`; the multiset of spawned-but-uncollected workers (each holding
its absolute index and input value) is the list `pending`, and the Go
counter `pendingInput` is its length.  Worker completions and the `select`
choice are nondeterministic, hence a step *relation*. -/

/-- `sizePower := uint(6); if len(sizePowerOpt) > 0 {sizePower = sizePowerOpt[0]}`
(src/seq.go lines 275-276). -/
def cmapSizePower (sizePowerOpt : List Nat) : Nat :=
  match sizePowerOpt with
  | [] => 6
  | p :: _ => p

/-- `size := 1 << sizePower` (src/seq.go line 277). -/
def cmapSize (sizePower : Nat) : Nat := 1 <<< sizePower

/-- The coordinator's state at the top of its loop:
upstream elements not yet received, `inputCount`, `inputClosed`, the
in-flight workers (absolute index, input value), the window, and the
elements emitted downstream so far. -/
structure CMapState where
  inputRest : List El
  inputCount : Nat
  inputClosed : Bool
  pending : List (Nat × El)
  window : SlidingWindow
  output : List El

/-- Go's `pendingInput` counter: incremented at worker spawn, decremented at
reply collection — always the number of in-flight workers. -/
def CMapState.pendingInput (σ : CMapState) : Nat := σ.pending.length

/-- Coordinator state on entry to the loop:
`window := NewSlidingWindow(sizePower); inputCount, pendingInput := 0, 0;
inputClosed := false`. -/
def CMapInit (S : List El) (sizePower : Nat) : CMapState :=
  ⟨S, 0, false, [], NewSlidingWindow sizePower, []⟩

/-- One iteration of the coordinator's `select` (src/seq.go lines 287-308).
Every constructor carries the loop condition
`!inputClosed || pendingInput > 0 || window.Count() > 0` (the body only runs
while it holds), plus one select case with its channel-nil gating:
* `emit` requires the front slot to be populated (`oc` is nil otherwise);
* `ingestClose`/`ingestElem` require the upstream open and
  `pendingInput < size` (`ic` is nil otherwise); the upstream delivers its
  elements in order and then closure;
* `collect` requires `window.Count() < size` (`rc` is nil otherwise) and
  consumes the reply of an arbitrary in-flight worker (`pending` is split as
  `l1 ++ p :: l2`); `window.Set`'s flag is ignored, exactly as in the code. -/
inductive CMapStep (f : El → El) (sizePower : Nat) : CMapState → CMapState → Prop where
  | emit (σ : CMapState)
      (hloop : σ.inputClosed = false ∨ 0 < σ.pending.length ∨ 0 < σ.window.count)
      (hf : σ.window.GetFirst.2 = true) :
      CMapStep f sizePower σ
        { σ with window := σ.window.RemoveFirst.2,
                 output := σ.output ++ [σ.window.GetFirst.1] }
  | ingestClose (σ : CMapState)
      (hloop : σ.inputClosed = false ∨ 0 < σ.pending.length ∨ 0 < σ.window.count)
      (hc : σ.inputClosed = false)
      (hp : σ.pending.length < cmapSize sizePower)
      (he : σ.inputRest = []) :
      CMapStep f sizePower σ { σ with inputClosed := true }
  | ingestElem (σ : CMapState) (x : El) (rest : List El)
      (hloop : σ.inputClosed = false ∨ 0 < σ.pending.length ∨ 0 < σ.window.count)
      (hc : σ.inputClosed = false)
      (hp : σ.pending.length < cmapSize sizePower)
      (he : σ.inputRest = x :: rest) :
      CMapStep f sizePower σ
        { σ with inputRest := rest,
                 inputCount := σ.inputCount + 1,
                 pending := σ.pending ++ [(σ.inputCount, x)] }
  | collect (σ : CMapState) (p : Nat × El) (l1 l2 : List (Nat × El))
      (hloop : σ.inputClosed = false ∨ 0 < σ.pending.length ∨ 0 < σ.window.count)
      (hw : σ.window.count < cmapSize sizePower)
      (hp : σ.pending = l1 ++ p :: l2) :
      CMapStep f sizePower σ
        { σ with window := (σ.window.Set (p.1 : Int) (f p.2)).1,
                 pending := l1 ++ l2 }

/-- States the coordinator can be in, starting from `CMapInit S sizePower`. -/
def CMapReachable (f : El → El) (sizePower : Nat) (S : List El) (σ : CMapState) : Prop :=
  Relation.ReflTransGen (CMapStep f sizePower) (CMapInit S sizePower) σ

/-- Negation of the loop condition
`!inputClosed || pendingInput > 0 || window.Count() > 0`: the coordinator
exits, closes the reply channel and (via `Gen`'s defer) the output channel. -/
def CMapTerminal (σ : CMapState) : Prop :=
  σ.inputClosed = true ∧ σ.pending = [] ∧ σ.window.count = 0

/-! ### A concrete adversarial schedule for `CMap`

Input `[0, 1, 2, 3]`, `sizePower = 1` (so `N = 2`), `f` the identity.
The schedule: ingest 0, ingest 1, collect 0, ingest 2, collect 1, ingest 3,
emit 0, collect 3, collect 2, observe upstream closure, emit 1, emit 2.
Worker 3 is spawned while `window.base = 0` (index 3 lies outside
`[base, base + N) = [0, 2)`), and its reply is collected while
`window.base = 1`, so `window.Set(3, ·)` rejects it and the result is
silently discarded: the coordinator terminates having emitted only
`[0, 1, 2]`.  Every step below is an instance of `CMapStep`, i.e. an
execution the Go `select` is permitted to take. -/

/-- The input sequence `From(0, 1, 2, 3)` of the adversarial schedule. -/
def bugInput : List El := [El.int 0, El.int 1, El.int 2, El.int 3]

/-- The identity user function used in the adversarial schedule. -/
def idEl : El → El := fun e => e

/-- Trace state 0: `CMapInit bugInput 1`. -/
def bugState0 : CMapState :=
  ⟨bugInput, 0, false, [], ⟨0, 0, 0, 1, [⟨El.nil, false⟩, ⟨El.nil, false⟩]⟩, []⟩

/-- Trace state 1: after ingesting element 0 (worker 0 spawned). -/
def bugState1 : CMapState :=
  ⟨[El.int 1, El.int 2, El.int 3], 1, false, [(0, El.int 0)],
    ⟨0, 0, 0, 1, [⟨El.nil, false⟩, ⟨El.nil, false⟩]⟩, []⟩

/-- Trace state 2: after ingesting element 1 (worker 1 spawned). -/
def bugState2 : CMapState :=
  ⟨[El.int 2, El.int 3], 2, false, [(0, El.int 0), (1, El.int 1)],
    ⟨0, 0, 0, 1, [⟨El.nil, false⟩, ⟨El.nil, false⟩]⟩, []⟩

/-- Trace state 3: after collecting worker 0's reply into the window. -/
def bugState3 : CMapState :=
  ⟨[El.int 2, El.int 3], 2, false, [(1, El.int 1)],
    ⟨0, 0, 1, 1, [⟨El.int 0, true⟩, ⟨El.nil, false⟩]⟩, []⟩

/-- Trace state 4: after ingesting element 2 (worker 2 spawned). -/
def bugState4 : CMapState :=
  ⟨[El.int 3], 3, false, [(1, El.int 1), (2, El.int 2)],
    ⟨0, 0, 1, 1, [⟨El.int 0, true⟩, ⟨El.nil, false⟩]⟩, []⟩

/-- Trace state 5: after collecting worker 1's reply. -/
def bugState5 : CMapState :=
  ⟨[El.int 3], 3, false, [(2, El.int 2)],
    ⟨0, 0, 2, 1, [⟨El.int 0, true⟩, ⟨El.int 1, true⟩]⟩, []⟩

/-- Trace state 6: after ingesting element 3 — worker 3 is spawned with
absolute index 3 while `base = 0` and `N = 2`, outside `[0, 2)`. -/
def bugState6 : CMapState :=
  ⟨[], 4, false, [(2, El.int 2), (3, El.int 3)],
    ⟨0, 0, 2, 1, [⟨El.int 0, true⟩, ⟨El.int 1, true⟩]⟩, []⟩

/-- Trace state 7: after emitting result 0 (`base` advances to 1).
Here the collect edge is enabled (`count = 1 < 2`) while worker 3 is still
in flight with `3 ≥ base + Capacity = 3`. -/
def bugState7 : CMapState :=
  ⟨[], 4, false, [(2, El.int 2), (3, El.int 3)],
    ⟨1, 1, 1, 1, [⟨El.nil, false⟩, ⟨El.int 1, true⟩]⟩, [El.int 0]⟩

/-- Trace state 8: after collecting worker 3's reply — `window.Set(3, 3)`
returns `false` (index `3 - base = 2 ≥ Capacity = 2`), the window is
unchanged and the result is dropped. -/
def bugState8 : CMapState :=
  ⟨[], 4, false, [(2, El.int 2)],
    ⟨1, 1, 1, 1, [⟨El.nil, false⟩, ⟨El.int 1, true⟩]⟩, [El.int 0]⟩

/-- Trace state 9: after collecting worker 2's reply. -/
def bugState9 : CMapState :=
  ⟨[], 4, false, [],
    ⟨1, 1, 2, 1, [⟨El.int 2, true⟩, ⟨El.int 1, true⟩]⟩, [El.int 0]⟩

/-- Trace state 10: after observing upstream closure. -/
def bugState10 : CMapState :=
  ⟨[], 4, true, [],
    ⟨1, 1, 2, 1, [⟨El.int 2, true⟩, ⟨El.int 1, true⟩]⟩, [El.int 0]⟩

/-- Trace state 11: after emitting result 1. -/
def bugState11 : CMapState :=
  ⟨[], 4, true, [],
    ⟨0, 2, 1, 1, [⟨El.int 2, true⟩, ⟨El.nil, false⟩]⟩, [El.int 0, El.int 1]⟩

/-- Trace state 12 (terminal): after emitting result 2 the loop condition
fails and the coordinator exits — result 3 was never emitted. -/
def bugState12 : CMapState :=
  ⟨[], 4, true, [],
    ⟨1, 3, 0, 1, [⟨El.nil, false⟩, ⟨El.nil, false⟩]⟩,
    [El.int 0, El.int 1, El.int 2]⟩

theorem bugStep1 : CMapStep idEl 1 bugState0 bugState1 :=
  CMapStep.ingestElem bugState0 (El.int 0) [El.int 1, El.int 2, El.int 3]
    (Or.inl rfl) rfl (by decide) rfl

theorem bugStep2 : CMapStep idEl 1 bugState1 bugState2 :=
  CMapStep.ingestElem bugState1 (El.int 1) [El.int 2, El.int 3]
    (Or.inl rfl) rfl (by decide) rfl

theorem bugStep3 : CMapStep idEl 1 bugState2 bugState3 :=
  CMapStep.collect bugState2 (0, El.int 0) [] [(1, El.int 1)]
    (Or.inl rfl) (by decide) rfl

theorem bugStep4 : CMapStep idEl 1 bugState3 bugState4 :=
  CMapStep.ingestElem bugState3 (El.int 2) [El.int 3]
    (Or.inl rfl) rfl (by decide) rfl

theorem bugStep5 : CMapStep idEl 1 bugState4 bugState5 :=
  CMapStep.collect bugState4 (1, El.int 1) [] [(2, El.int 2)]
    (Or.inl rfl) (by decide) rfl

theorem bugStep6 : CMapStep idEl 1 bugState5 bugState6 :=
  CMapStep.ingestElem bugState5 (El.int 3) []
    (Or.inl rfl) rfl (by decide) rfl

theorem bugStep7 : CMapStep idEl 1 bugState6 bugState7 :=
  CMapStep.emit bugState6 (Or.inl rfl) rfl

theorem bugStep8 : CMapStep idEl 1 bugState7 bugState8 :=
  CMapStep.collect bugState7 (3, El.int 3) [(2, El.int 2)] []
    (Or.inl rfl) (by decide) rfl

theorem bugStep9 : CMapStep idEl 1 bugState8 bugState9 :=
  CMapStep.collect bugState8 (2, El.int 2) [] []
    (Or.inl rfl) (by decide) rfl

theorem bugStep10 : CMapStep idEl 1 bugState9 bugState10 :=
  CMapStep.ingestClose bugState9 (Or.inl rfl) rfl (by decide) rfl

theorem bugStep11 : CMapStep idEl 1 bugState10 bugState11 :=
  CMapStep.emit bugState10 (Or.inr (Or.inr (by decide))) rfl

theorem bugStep12 : CMapStep idEl 1 bugState11 bugState12 :=
  CMapStep.emit bugState11 (Or.inr (Or.inr (by decide))) rfl

theorem bugReach7 : CMapReachable idEl 1 bugInput bugState7 :=
  Relation.ReflTransGen.tail
    (Relation.ReflTransGen.tail
      (Relation.ReflTransGen.tail
        (Relation.ReflTransGen.tail
          (Relation.ReflTransGen.tail
            (Relation.ReflTransGen.tail
              (Relation.ReflTransGen.tail Relation.ReflTransGen.refl bugStep1)
              bugStep2)
            bugStep3)
          bugStep4)
        bugStep5)
      bugStep6)
    bugStep7

theorem bugReach12 : CMapReachable idEl 1 bugInput bugState12 :=
  Relation.ReflTransGen.tail
    (Relation.ReflTransGen.tail
      (Relation.ReflTransGen.tail
        (Relation.ReflTransGen.tail
          (Relation.ReflTransGen.tail bugReach7 bugStep8)
          bugStep9)
        bugStep10)
      bugStep11)
    bugStep12

/-! ## Sequential sequences and derived operations

`SequentialSeq` (src/seq.go line 513) is a Go slice, modelled as `List El`.
All traversal in the library funnels through `Find` (src/seq.go lines
531-536 for the sequential loop, lines 474-481 for the channel loop);
`Do`, `SMap`, `Fold`, … run `Find` with a predicate that performs a side
effect and returns `false` (or a stop condition), so they visit every
element in order.  The side-effecting closures are modelled by explicit
accumulator threading over the visited elements (which `Find` visits in
list order). -/

/-- `(*SequentialSeq).Find` (src/seq.go lines 531-536): scan `(*s)[i]` for
`i = 0, 1, …`; return the first element for which `f` is true, else `nil`. -/
def SequentialSeq.Find (f : El → Bool) : List El → El
  | [] => El.nil
  | x :: rest => if f x then x else SequentialSeq.Find f rest

/-- `ConcurrentSeq.Find` (src/seq.go lines 474-481): `c := s(); defer
close(c); for el := <-c; !closed(c); el = <-c { if f(el) {return el} };
return nil`.  The channel is modelled by the list of elements the producer
sends before closing; the loop consumes them in order; the `defer close(c)`
always closes the channel on return. -/
def ConcurrentSeq.FindLoop (f : El → Bool) : List El → El
  | [] => El.nil
  | x :: rest => if f x then x else ConcurrentSeq.FindLoop f rest

/-- The observable outcome of `ConcurrentSeq.Find`: the returned element and
whether the underlying channel has been closed when `Find` returns (it
always is, by the `defer close(c)`). -/
def ConcurrentSeq.FindRun (f : El → Bool) (emitted : List El) : El × Bool :=
  (ConcurrentSeq.FindLoop f emitted, true)

/-- The state-threading skeleton shared by `Do`-based operations
(src/seq.go lines 113-118): `Find` with a constantly-false predicate visits
every element in order, and the closure mutates its captured state; the
state after visiting `s` is the left fold of the closure body. -/
def SeqDo (s : List El) (g : β → El → β) (init : β) : β := s.foldl g init

/-- `Sequence.SMap` (src/seq.go lines 202-206): `Do` appending `f(el)` to a
fresh slice. -/
def SMap (s : List El) (f : El → El) : List El :=
  SeqDo s (fun acc el => acc ++ [f el]) []

/-- `Sequence.Output`/`Sequence.Concurrent` (src/seq.go lines 27-30, 130):
converting a materialized sequence to a concurrent one wraps it in
`Gen(func(c){s.Output(c)})`, whose producer `Do`-sends every element to the
channel in order.  The model of the resulting concurrent sequence is the
list of elements sent. -/
def SequenceConcurrent (s : List El) : List El :=
  SeqDo s (fun acc el => acc ++ [el]) []

/-- `Sequence.Sequential` (src/seq.go lines 33-36) on a concurrent sequence:
`s.SMap(func(el El)El{return el})`, reading the channel to completion and
collecting the elements. -/
def SequenceSequential (emitted : List El) : List El :=
  SMap emitted (fun el => el)

theorem SeqDo_append_eq (s : List El) (f : El → El) (acc : List El) :
    SeqDo s (fun acc el => acc ++ [f el]) acc = acc ++ s.map f := by
  induction s generalizing acc with
  | nil => simp [SeqDo]
  | cons x rest ih =>
    simp only [SeqDo, List.foldl_cons, List.map_cons] at *
    rw [ih]
    simp

theorem SeqDo_push_eq (s : List El) (acc : List El) :
    SeqDo s (fun acc el => acc ++ [el]) acc = acc ++ s := by
  induction s generalizing acc with
  | nil => simp [SeqDo]
  | cons x rest ih =>
    simp only [SeqDo, List.foldl_cons] at *
    rw [ih]
    simp

/-- `(*SequentialSeq).Rest` (src/seq.go lines 539-542): `s2 := (*s)[1:]`.
The Go slice expression `(*s)[1:]` requires `1 ≤ len(*s)` and faults with an
out-of-range panic otherwise, so the model returns `Option`: `none` is the
panic on the empty sequence. -/
def SequentialSeq.Rest (s : List El) : Option (List El) :=
  if 1 ≤ s.length then some (s.drop 1) else none

/-- `Sequence.First` (src/seq.go lines 87-94): `Find` with a closure that
records the element and returns `true`; `result` stays `nil` on an empty
sequence. -/
def SequenceFirst (s : List El) : El :=
  SequentialSeq.Find (fun _ => true) s

/-- The loop inside `Sequence.FirstN` (src/seq.go lines 39-48):
`r := make([]interface{}, n)` is `replicate n nil`; the closure does
`r[x] = el; x++; return x == n`, and `Find` visits elements in order until
the closure returns true.  The write `r[x] = el` faults when `x ≥ len(r)`
(the `n = 0` case on a non-empty sequence), hence `Option`. -/
def FirstN.go : List El → List El → Nat → Option (List El)
  | [], r, _ => some r
  | el :: rest, r, x =>
    if x < r.length then
      let r2 := r.set x el
      if x + 1 = r2.length then some r2 else FirstN.go rest r2 (x + 1)
    else none

/-- `Sequence.FirstN` (src/seq.go lines 39-48). -/
def FirstN (s : List El) (n : Nat) : Option (List El) :=
  FirstN.go s (List.replicate n El.nil) 0

/-- The Go type assertion `el.(Sequence)` applied to an element holding a
nested sequence.  On any other element the Go assertion panics; the
operations verified here only apply it to sequence elements. -/
def El.asSeq : El → List El
  | .seq l => l
  | _ => []

/-- `Sequence.SAppend` (src/seq.go lines 152-156): `append(slice,
s2.ToSlice()...)` — list concatenation. -/
def SAppend (s1 s2 : List El) : List El := s1 ++ s2

/-- `Sequence.SFlatMap` (src/seq.go lines 320-324): `Do` over `s`, and for
each element an inner `Do` over `f(e)` appending each sub-element. -/
def SFlatMap (s : List El) (f : El → List El) : List El :=
  SeqDo s (fun acc el => acc ++ f el) []

/-- `Sequence.Fold` (src/seq.go lines 336-339): `Do` threading
`init = f(init, el)`. -/
def Fold (s : List El) (init : α) (f : α → El → α) : α := SeqDo s f init

/-- `Sequence.Product` (src/seq.go lines 350-358): fold starting from
`From(From())` (the singleton holding the empty tuple), combining the
accumulated tuples with each factor via `FlatMap`/`Map`/`Append`.  All
sequences involved are materialized, so the sequential variants apply;
`Sequence` values are modelled by the lists they contain. -/
def Product (sequences : List El) : List El :=
  Fold sequences [El.seq []] (fun result each =>
    SFlatMap result (fun sq =>
      SMap (El.asSeq each) (fun i => El.seq (SAppend (El.asSeq sq) [i]))))

/-! ## Claims -/

/-- **C1.** The claim states that for every finite input, pure `f` and bound
`k ≥ 0`, consuming `CMap` emits exactly `f(S_0), …, f(S_{n-1})` with no
element missing, under every scheduling of the coordinator's three-way
select.  The code refutes it: with input `[0, 1, 2, 3]`, the identity
function and `k = 1`, a select-legal schedule reaches a terminal coordinator
state whose emitted output is `[0, 1, 2]` — the result for index 3 was
rejected by `window.Set` (its worker was spawned outside the window) and
silently dropped, so an element is missing. -/
theorem C1_cmap_can_drop_an_element :
    ∃ σ : CMapState,
      CMapReachable idEl 1 bugInput σ ∧ CMapTerminal σ ∧
      σ.output = [El.int 0, El.int 1, El.int 2] ∧
      σ.output ≠ bugInput.map idEl := by
  refine ⟨bugState12, bugReach12, ⟨rfl, rfl, rfl⟩, rfl, ?_⟩
  intro h
  have hlen := congrArg List.length h
  simp [bugState12, bugInput] at hlen

/-- **C2.** At every reachable state of the `CMap` coordinator the number of
spawned-but-uncollected workers (`pendingInput`) is at most
`N = 2^sizePower`; the only step that spawns a worker requires
`pendingInput < N` and the input open (the ingest edge's gating); and with
no explicit bound, `sizePower` defaults to 6. -/
theorem C2_pendingInput_bounded (f : El → El) (k : Nat) (S : List El)
    (σ : CMapState) (h : CMapReachable f k S σ) :
    σ.pendingInput ≤ cmapSize k ∧
    cmapSizePower [] = 6 ∧
    (∀ σ', CMapStep f k σ σ' → σ.inputCount < σ'.inputCount →
        σ.pendingInput < cmapSize k ∧ σ.inputClosed = false) := by
  refine ⟨?_, rfl, ?_⟩
  · induction h with
    | refl => simp [CMapInit, CMapState.pendingInput]
    | tail hr hs ih =>
      cases hs with
      | emit hloop hf => simpa [CMapState.pendingInput] using ih
      | ingestClose hloop hc hp he => simpa [CMapState.pendingInput] using ih
      | ingestElem x rest hloop hc hp he =>
        simp only [CMapState.pendingInput, List.length_append,
          List.length_cons, List.length_nil] at *
        omega
      | collect p l1 l2 hloop hw hp =>
        simp only [CMapState.pendingInput, hp, List.length_append,
          List.length_cons] at *
        omega
  · intro σ' hs hlt
    cases hs with
    | emit hloop hf => simp at hlt
    | ingestClose hloop hc hp he => simp at hlt
    | ingestElem x rest hloop hc hp he => exact ⟨hp, hc⟩
    | collect p l1 l2 hloop hw hp => simp at hlt

/-- Witness for C2: the initial coordinator state with the default bound
(`sizePower = 6`, `N = 64`) satisfies the pending bound. -/
theorem C2_pendingInput_bounded_witness :
    (CMapInit [] 6).pendingInput ≤ cmapSize 6 ∧ cmapSizePower [] = 6 :=
  ⟨(C2_pendingInput_bounded idEl 6 [] (CMapInit [] 6) Relation.ReflTransGen.refl).1,
   (C2_pendingInput_bounded idEl 6 [] (CMapInit [] 6) Relation.ReflTransGen.refl).2.1⟩

/-- **C3.** The claim states that every worker is spawned with an absolute
index in `[base, base + N)`, so the coordinator never triggers the
`window.Set` rejection branch.  The code refutes it: the reachable state
`bugState7` has worker 3 in flight with `3 ≥ base + Capacity = 1 + 2`, the
collect edge enabled (`count = 1 < N = 2`), and collecting that worker's
reply makes `window.Set` return `false` — the rejection branch fires and the
result is discarded. -/
theorem C3_set_rejection_is_triggered :
    ∃ σ : CMapState,
      CMapReachable idEl 1 bugInput σ ∧
      (3, El.int 3) ∈ σ.pending ∧
      σ.window.base + σ.window.Capacity ≤ 3 ∧
      σ.window.count < cmapSize 1 ∧
      (σ.window.Set (3 : Int) (idEl (El.int 3))).2 = false := by
  refine ⟨bugState7, bugReach7, ?_, ?_, ?_, ?_⟩
  · exact List.mem_cons_of_mem _ (List.mem_cons_self _ _)
  · decide
  · decide
  · rfl

theorem getD_eq_getElem_of_lt (l : List swEntry) (i : Nat) (h : i < l.length) :
    l.getD i default = l[i] := by
  simp [List.getD_eq_getElem?_getD, List.getElem?_eq_getElem h]

/-- **C4.** For every well-formed `SlidingWindow` with capacity `C` and base
`b`, and every index `i`: out of `[b, b + C)`, `Set(i, v)` returns `false`
and leaves the window untouched and `Get(i)` returns `(nil, false)`; inside
`[b, b + C)`, `Set(i, v)` returns `true`, stores `v` at slot `i` marked
present (so `Get(i)` then yields `(v, true)`), increments `count` exactly
when the slot was absent, and alters no other field; and `Get(i)` returns
`(nil, false)` exactly when `i` is out of range or the slot is absent. -/
theorem C4_set_get_characterization (k : Nat) (r : SlidingWindow)
    (hwf : SlidingWindow.WF k r) (i : Int) (v : El) :
    ((i < (r.base : Int) ∨ (r.base : Int) + r.Capacity ≤ i) →
        r.Set i v = (r, false) ∧ r.Get i = (El.nil, false)) ∧
    ((r.base : Int) ≤ i ∧ i < (r.base : Int) + r.Capacity →
        (r.Set i v).2 = true ∧
        (r.Set i v).1.Get i = (v, true) ∧
        (r.Set i v).1.count = (if (r.Get i).2 then r.count else r.count + 1) ∧
        (r.Set i v).1.base = r.base ∧ (r.Set i v).1.start = r.start ∧
        (r.Set i v).1.Capacity = r.Capacity) ∧
    (r.Get i = (El.nil, false) ↔
        (i < (r.base : Int) ∨ (r.base : Int) + r.Capacity ≤ i ∨
          (r.Get i).2 = false)) := by
  refine ⟨?_, ?_, ?_⟩
  · intro hout
    have hcond : (i - (r.base : Int)) < 0 ∨ (r.Capacity : Int) ≤ i - r.base := by
      omega
    exact ⟨by simp only [SlidingWindow.Set]; rw [if_pos hcond],
           by simp only [SlidingWindow.Get]; rw [if_pos hcond]⟩
  · rintro ⟨h1, h2⟩
    have hcond : ¬((i - (r.base : Int)) < 0 ∨ (r.Capacity : Int) ≤ i - r.base) := by
      omega
    have hcond' : ¬((i - (r.base : Int)) < 0 ∨
        ((r.values.length : Int) ≤ i - r.base)) := by
      simpa [SlidingWindow.Capacity] using hcond
    have hk := SlidingWindow.normalize_lt k r hwf
      ((i - (r.base : Int)).toNat + r.start)
    simp only [SlidingWindow.normalize] at hk
    simp only [SlidingWindow.Set, SlidingWindow.Get, SlidingWindow.Capacity,
      SlidingWindow.normalize, List.length_set, if_neg hcond']
    refine ⟨trivial, ?_, trivial, trivial, trivial, trivial⟩
    rw [getD_eq_getElem_of_lt _ _ (by rw [List.length_set]; exact hk)]
    rw [List.getElem_set_self]
  · constructor
    · intro hnil
      by_cases hio : i < (r.base : Int) ∨ (r.base : Int) + r.Capacity ≤ i
      · rcases hio with h | h
        · exact Or.inl h
        · exact Or.inr (Or.inl h)
      · exact Or.inr (Or.inr (by rw [hnil]))
    · intro hcase
      rcases hcase with hio | hio | hflag
      · have hcond : (i - (r.base : Int)) < 0 ∨ (r.Capacity : Int) ≤ i - r.base := by
          omega
        simp only [SlidingWindow.Get]; rw [if_pos hcond]
      · have hcond : (i - (r.base : Int)) < 0 ∨ (r.Capacity : Int) ≤ i - r.base := by
          omega
        simp only [SlidingWindow.Get]; rw [if_pos hcond]
      · by_cases hio : (i - (r.base : Int)) < 0 ∨ (r.Capacity : Int) ≤ i - r.base
        · simp only [SlidingWindow.Get]; rw [if_pos hio]
        · have hk := SlidingWindow.normalize_lt k r hwf
            ((i - (r.base : Int)).toNat + r.start)
          simp only [SlidingWindow.Get, if_neg hio] at hflag ⊢
          have hmem : r.values.getD
              (r.normalize ((i - (r.base : Int)).toNat + r.start)) default ∈
              r.values := by
            rw [getD_eq_getElem_of_lt _ _ hk]
            exact List.getElem_mem hk
          have hval := hwf.absent_nil _ hmem hflag
          rw [hval, hflag]

/-- Witness for C4 on the freshly constructed window of capacity 2:
index 5 is rejected, index 0 is accepted. -/
theorem C4_set_get_characterization_witness :
    ((NewSlidingWindow 1).Set 5 (El.int 7) = (NewSlidingWindow 1, false)) ∧
    (((NewSlidingWindow 1).Set 0 (El.int 7)).2 = true) :=
  ⟨((C4_set_get_characterization 1 (NewSlidingWindow 1)
      ⟨rfl, rfl, by decide,
        fun e he _ => by rw [List.eq_of_mem_replicate he]⟩
      5 (El.int 7)).1 (by decide)).1,
   ((C4_set_get_characterization 1 (NewSlidingWindow 1)
      ⟨rfl, rfl, by decide,
        fun e he _ => by rw [List.eq_of_mem_replicate he]⟩
      0 (El.int 7)).2.1 (by constructor <;> decide)).1⟩

/-- **C5.** Converting a materialized sequence to a concurrent sequence
(`Sequence.Concurrent`, which `Gen`-wraps `Output`) and back
(`Sequence.Sequential`, which `SMap`s the identity over the channel) yields
a sequence equal to the original as an ordered sequence, in particular of
the same length. -/
theorem C5_materialize_concurrent_roundtrip (s : List El) :
    SequenceSequential (SequenceConcurrent s) = s ∧
    (SequenceSequential (SequenceConcurrent s)).length = s.length := by
  have h1 : SequenceConcurrent s = s := by
    simpa using SeqDo_push_eq s []
  have h2 : SequenceSequential s = s := by
    have := SeqDo_append_eq s (fun el => el) []
    simpa [SequenceSequential, SMap] using this
  rw [h1, h2]
  exact ⟨rfl, rfl⟩

/-- **C6.** `Find(p)` returns the first element in iteration order
satisfying `p` (characterized against `List.find?`), and `nil` when no
element satisfies `p`; the concurrent variant reads its channel in order and
always closes it before returning (the `defer close(c)`). -/
theorem C6_find_returns_first_match (p : El → Bool) (s : List El) :
    SequentialSeq.Find p s = (s.find? p).getD El.nil ∧
    (ConcurrentSeq.FindRun p s).1 = (s.find? p).getD El.nil ∧
    (ConcurrentSeq.FindRun p s).2 = true := by
  refine ⟨?_, ?_, rfl⟩
  · induction s with
    | nil => rfl
    | cons x rest ih =>
      by_cases hx : p x = true
      · simp [SequentialSeq.Find, hx, List.find?_cons_of_pos _ hx]
      · have hx' : p x = false := by simpa using hx
        simp [SequentialSeq.Find, hx', List.find?_cons_of_neg _ hx, ih]
  · induction s with
    | nil => rfl
    | cons x rest ih =>
      by_cases hx : p x = true
      · simp [ConcurrentSeq.FindRun, ConcurrentSeq.FindLoop, hx,
          List.find?_cons_of_pos _ hx]
      · have hx' : p x = false := by simpa using hx
        simp only [ConcurrentSeq.FindRun, ConcurrentSeq.FindLoop, hx',
          List.find?_cons_of_neg _ hx, if_false] at ih ⊢
        simpa using ih

/-- **C7.** `Product` is the left fold starting from the singleton sequence
holding the empty tuple, extending each accumulated tuple with each element
of the next factor via flat-map/map; in particular
`Product(From(From(1,2), From(10,20)))` is exactly
`[[1,10],[1,20],[2,10],[2,20]]` in that order. -/
theorem C7_product_fold_and_example (sequences : List El) :
    Product sequences =
      Fold sequences [El.seq []] (fun result each =>
        SFlatMap result (fun sq =>
          SMap (El.asSeq each) (fun i => El.seq (SAppend (El.asSeq sq) [i])))) ∧
    Product [El.seq [El.int 1, El.int 2], El.seq [El.int 10, El.int 20]] =
      [El.seq [El.int 1, El.int 10], El.seq [El.int 1, El.int 20],
       El.seq [El.int 2, El.int 10], El.seq [El.int 2, El.int 20]] :=
  ⟨rfl, rfl⟩

/-- **C9.** `Rest` on a materialized sequence requires the sequence to be
non-empty: on a non-empty sequence it returns the tail, but on the empty
sequence the Go slice expression `(*s)[1:]` is out of bounds and the call
faults (`none`) instead of returning an empty sequence. -/
theorem C9_rest_unsafe_on_empty (s : List El) (h : s ≠ []) :
    SequentialSeq.Rest s = some s.tail ∧
    SequentialSeq.Rest ([] : List El) = none := by
  refine ⟨?_, rfl⟩
  have hlen : 1 ≤ s.length := by
    cases s with
    | nil => exact absurd rfl h
    | cons x rest => simp
  simp [SequentialSeq.Rest, hlen, List.drop_one]

/-- Witness for C9: `Rest` of the singleton `[1]` is the empty sequence;
`Rest` of the empty sequence faults. -/
theorem C9_rest_unsafe_on_empty_witness :
    SequentialSeq.Rest [El.int 1] = some [] ∧
    SequentialSeq.Rest ([] : List El) = none :=
  C9_rest_unsafe_on_empty [El.int 1] (by simp)

theorem FirstN_go_fill (s : List El) : ∀ (pre : List El) (n : Nat),
    pre.length + s.length < n →
    FirstN.go s (pre ++ List.replicate (n - pre.length) El.nil) pre.length =
      some (pre ++ s ++ List.replicate (n - pre.length - s.length) El.nil) := by
  induction s with
  | nil =>
    intro pre n h
    simp [FirstN.go]
  | cons el rest ih =>
    intro pre n h
    have hpre_lt : pre.length < n := by
      simp only [List.length_cons] at h
      omega
    have hlen : (pre ++ List.replicate (n - pre.length) El.nil).length = n := by
      simp
      omega
    have hx : pre.length < (pre ++ List.replicate (n - pre.length) El.nil).length := by
      rw [hlen]
      exact hpre_lt
    have hrepl : List.replicate (n - pre.length) El.nil =
        El.nil :: List.replicate (n - pre.length - 1) El.nil := by
      have heq : n - pre.length = (n - pre.length - 1) + 1 := by omega
      conv_lhs => rw [heq, List.replicate_succ]
    have hset : (pre ++ List.replicate (n - pre.length) El.nil).set pre.length el =
        (pre ++ [el]) ++ List.replicate (n - (pre ++ [el]).length) El.nil := by
      rw [List.set_append_right _ _ (le_refl _), Nat.sub_self, hrepl]
      simp
      omega
    have hstop : ¬(pre.length + 1 =
        ((pre ++ List.replicate (n - pre.length) El.nil).set pre.length el).length) := by
      rw [List.length_set, hlen]
      simp only [List.length_cons] at h
      omega
    rw [FirstN.go, if_pos hx, if_neg hstop, hset]
    have happ : (pre ++ [el]).length = pre.length + 1 := by simp
    rw [happ]
    have := ih (pre ++ [el]) n (by simp only [List.length_cons] at h; simp; omega)
    rw [happ] at this
    rw [this]
    simp only [List.length_cons]
    congr 2
    · simp
    · congr 1
      omega

/-- **C10.** For `n ≥ 1` and a sequence with fewer than `n` elements,
`FirstN(s, n)` returns (without fault) a slice of length exactly `n` whose
leading entries are the elements of `s` in order and whose remaining entries
are `nil`; in particular `First()` of an empty sequence returns `nil`. -/
theorem C10_firstN_pads_with_nil (s : List El) (n : Nat)
    (h1 : 1 ≤ n) (h2 : s.length < n) :
    FirstN s n = some (s ++ List.replicate (n - s.length) El.nil) ∧
    (s ++ List.replicate (n - s.length) El.nil).length = n ∧
    SequenceFirst [] = El.nil := by
  refine ⟨?_, by simp; omega, rfl⟩
  have := FirstN_go_fill s [] n (by simpa using h2)
  simpa [FirstN] using this

/-- Witness for C10: `FirstN([5], 3)` is `[5, nil, nil]`. -/
theorem C10_firstN_pads_with_nil_witness :
    FirstN [El.int 5] 3 = some [El.int 5, El.nil, El.nil] ∧
    SequenceFirst [] = El.nil :=
  ⟨(C10_firstN_pads_with_nil [El.int 5] 3 (by decide) (by decide)).1,
   (C10_firstN_pads_with_nil [El.int 5] 3 (by decide) (by decide)).2.2⟩

end SeqModel
